import Mathlib

/-!
Verification of `src/python/yugabyte_db_thirdparty/env_helpers.py`.

The process environment (`os.environ`) is modelled as a total function from
variable names to `Option String` (`none` = the variable is unset).  Python
dictionaries (the override set `env_vars` and the snapshot `saved_env_vars`)
are modelled as association lists of `(name, value)` pairs in insertion
order; a genuine Python `dict` has no duplicate keys, which appears as a
`Nodup` hypothesis on the list of keys where a theorem needs it.
-/

/-- The process environment: a map from variable names to values,
`none` meaning the variable is unset. -/
def Env : Type := String → Option String

/-- Function `dict_set_or_del` from `env_helpers.py`: set the value of key
`k` in `d` to `v`, or delete the key if `v` is `None`. -/
def dict_set_or_del (d : Env) (k : String) (v : Option String) : Env :=
  match v with
  | none => fun x => if x = k then none else d x
  | some s => fun x => if x = k then some s else d x

/-- Method `EnvVarContext.__enter__`: iterate over the items of `self.env_vars`;
for each `(name, newValue)` first record the current environment value of
`name` into `saved_env_vars`, then apply `dict_set_or_del` to the
environment.  Returns the built `saved_env_vars` and the new environment. -/
def envVarContextEnter : List (String × Option String) → Env →
    List (String × Option String) × Env
  | [], environ => ([], environ)
  | (name, newValue) :: rest, environ =>
    let savedValue := environ name
    let r := envVarContextEnter rest (dict_set_or_del environ name newValue)
    ((name, savedValue) :: r.1, r.2)

/-- Method `EnvVarContext.__exit__`: for each `(name, savedValue)` recorded in
`saved_env_vars`, apply `dict_set_or_del` to the environment. -/
def envVarContextExit : List (String × Option String) → Env → Env
  | [], environ => environ
  | (name, savedValue) :: rest, environ =>
    envVarContextExit rest (dict_set_or_del environ name savedValue)

theorem dict_set_or_del_apply (d : Env) (k : String) (v : Option String)
    (x : String) : dict_set_or_del d k v x = if x = k then v else d x := by
  cases v <;> rfl

/-- The saved state captured by `__enter__` records exactly the override
set of names, in order. -/
theorem enter_saved_keys (O : List (String × Option String)) (E : Env) :
    (envVarContextEnter O E).1.map Prod.fst = O.map Prod.fst := by
  induction O generalizing E with
  | nil => rfl
  | cons p rest ih =>
    obtain ⟨name, newValue⟩ := p
    simp [envVarContextEnter, ih]

/-- Method `__enter__` does not change variables outside the override set. -/
theorem enter_env_not_mem (O : List (String × Option String)) (E : Env)
    (k : String) (hk : k ∉ O.map Prod.fst) :
    (envVarContextEnter O E).2 k = E k := by
  induction O generalizing E with
  | nil => rfl
  | cons p rest ih =>
    obtain ⟨name, newValue⟩ := p
    simp only [List.map_cons, List.mem_cons, not_or] at hk
    simp only [envVarContextEnter]
    rw [ih _ hk.2, dict_set_or_del_apply, if_neg hk.1]

/-- After `__enter__`, a variable with override value `v` holds `v`
(override keys are unique, as in a Python dict). -/
theorem enter_env_lookup (O : List (String × Option String)) (E : Env)
    (k : String) (v : Option String) (hnd : (O.map Prod.fst).Nodup)
    (hv : List.lookup k O = some v) :
    (envVarContextEnter O E).2 k = v := by
  induction O generalizing E with
  | nil => simp [List.lookup] at hv
  | cons p rest ih =>
    obtain ⟨name, newValue⟩ := p
    simp only [List.map_cons, List.nodup_cons] at hnd
    by_cases hk : k = name
    · subst hk
      simp only [List.lookup, beq_self_eq_true] at hv
      injection hv with hv
      subst hv
      simp only [envVarContextEnter]
      rw [enter_env_not_mem _ _ _ hnd.1, dict_set_or_del_apply, if_pos rfl]
    · simp only [List.lookup, beq_eq_false_iff_ne.mpr hk] at hv
      simp only [envVarContextEnter]
      exact ih _ hnd.2 hv

/-- The saved state maps each override name to its pre-entry value. -/
theorem enter_saved_lookup (O : List (String × Option String)) (E : Env)
    (k : String) (hk : k ∈ O.map Prod.fst) :
    List.lookup k (envVarContextEnter O E).1 = some (E k) := by
  induction O generalizing E with
  | nil => simp at hk
  | cons p rest ih =>
    obtain ⟨name, newValue⟩ := p
    by_cases h : k = name
    · subst h
      simp [envVarContextEnter, List.lookup]
    · simp only [List.map_cons, List.mem_cons, h, false_or] at hk
      simp only [envVarContextEnter, List.lookup, beq_eq_false_iff_ne.mpr h]
      rw [ih _ hk, dict_set_or_del_apply, if_neg h]

/-- Method `__exit__` does not change variables outside the saved state. -/
theorem exit_env_not_mem (s : List (String × Option String)) (env : Env)
    (k : String) (hk : k ∉ s.map Prod.fst) :
    envVarContextExit s env k = env k := by
  induction s generalizing env with
  | nil => rfl
  | cons p rest ih =>
    obtain ⟨name, savedValue⟩ := p
    simp only [List.map_cons, List.mem_cons, not_or] at hk
    simp only [envVarContextExit]
    rw [ih _ hk.2, dict_set_or_del_apply, if_neg hk.1]

/-- Method `__exit__` restores each saved name to its saved value (saved keys are
unique, as in a Python dict). -/
theorem exit_env_lookup (s : List (String × Option String)) (env : Env)
    (k : String) (v : Option String) (hnd : (s.map Prod.fst).Nodup)
    (hv : List.lookup k s = some v) :
    envVarContextExit s env k = v := by
  induction s generalizing env with
  | nil => simp [List.lookup] at hv
  | cons p rest ih =>
    obtain ⟨name, savedValue⟩ := p
    simp only [List.map_cons, List.nodup_cons] at hnd
    by_cases hk : k = name
    · subst hk
      simp only [List.lookup, beq_self_eq_true] at hv
      injection hv with hv
      subst hv
      simp only [envVarContextExit]
      rw [exit_env_not_mem _ _ _ hnd.1, dict_set_or_del_apply, if_pos rfl]
    · simp only [List.lookup, beq_eq_false_iff_ne.mpr hk] at hv
      simp only [envVarContextExit]
      exact ih _ hnd.2 hv

theorem mem_keys_of_lookup (l : List (String × Option String)) (k : String)
    (v : Option String) (hv : List.lookup k l = some v) :
    k ∈ l.map Prod.fst := by
  induction l with
  | nil => simp [List.lookup] at hv
  | cons p rest ih =>
    obtain ⟨name, value⟩ := p
    by_cases h : k = name
    · subst h
      simp
    · simp only [List.lookup, beq_eq_false_iff_ne.mpr h] at hv
      simp only [List.map_cons, List.mem_cons]
      exact Or.inr (ih hv)

/-- Entering and then exiting restores every override-set name to its
pre-entry value (shared helper). -/
theorem enter_exit_restore (O : List (String × Option String)) (E : Env)
    (k : String) (hnd : (O.map Prod.fst).Nodup) (hk : k ∈ O.map Prod.fst) :
    envVarContextExit (envVarContextEnter O E).1 (envVarContextEnter O E).2 k
      = E k := by
  apply exit_env_lookup
  · rw [enter_saved_keys]
    exact hnd
  · exact enter_saved_lookup O E k hk

/-- C1: for every initial environment `E` and override set `O` (a dict, so
its keys are distinct), running `__enter__` then `__exit__` leaves every
variable named in `O` with exactly the value (or absence) it had in `E`
before `__enter__`, regardless of the values assigned by `O`. -/
theorem envVarContext_restores_override_names
    (O : List (String × Option String)) (E : Env) (k : String)
    (hnd : (O.map Prod.fst).Nodup) (hk : k ∈ O.map Prod.fst) :
    envVarContextExit (envVarContextEnter O E).1 (envVarContextEnter O E).2 k
      = E k :=
  enter_exit_restore O E k hnd hk

theorem envVarContext_restores_override_names_witness :
    envVarContextExit
      (envVarContextEnter [(("A"), some ("1")), (("B"), none)]
        (fun n => if n = ("B") then some ("b") else none)).1
      (envVarContextEnter [(("A"), some ("1")), (("B"), none)]
        (fun n => if n = ("B") then some ("b") else none)).2 ("A")
      = (fun n : String => if n = ("B") then some ("b") else none) ("A") :=
  envVarContext_restores_override_names
    [(("A"), some ("1")), (("B"), none)]
    (fun n => if n = ("B") then some ("b") else none) ("A")
    (by decide) (by decide)

/-- C2: neither `__enter__` nor `__exit__` changes a variable whose name is
not in the override set. -/
theorem envVarContext_non_interference
    (O : List (String × Option String)) (E : Env) (k : String)
    (hk : k ∉ O.map Prod.fst) :
    (envVarContextEnter O E).2 k = E k ∧
    envVarContextExit (envVarContextEnter O E).1 (envVarContextEnter O E).2 k
      = E k := by
  refine ⟨enter_env_not_mem O E k hk, ?_⟩
  rw [exit_env_not_mem _ _ _ (by rw [enter_saved_keys]; exact hk)]
  exact enter_env_not_mem O E k hk

theorem envVarContext_non_interference_witness :
    ((envVarContextEnter [(("A"), some ("1"))]
        (fun n => if n = ("W") then some ("w") else none)).2 ("W")
      = (fun n : String => if n = ("W") then some ("w") else none) ("W")) ∧
    (envVarContextExit
      (envVarContextEnter [(("A"), some ("1"))]
        (fun n => if n = ("W") then some ("w") else none)).1
      (envVarContextEnter [(("A"), some ("1"))]
        (fun n => if n = ("W") then some ("w") else none)).2 ("W")
      = (fun n : String => if n = ("W") then some ("w") else none) ("W")) :=
  envVarContext_non_interference [(("A"), some ("1"))]
    (fun n => if n = ("W") then some ("w") else none) ("W") (by decide)

/-- C3: if `V` has value `x` before `__enter__` and the override set maps
`V` to `None`, then after `__enter__` `V` is absent and after `__exit__`
it has value `x` again. -/
theorem envVarContext_present_to_unset_round_trip
    (O : List (String × Option String)) (E : Env) (V x : String)
    (hnd : (O.map Prod.fst).Nodup) (hO : List.lookup V O = some none)
    (hE : E V = some x) :
    (envVarContextEnter O E).2 V = none ∧
    envVarContextExit (envVarContextEnter O E).1 (envVarContextEnter O E).2 V
      = some x := by
  refine ⟨enter_env_lookup O E V none hnd hO, ?_⟩
  rw [enter_exit_restore O E V hnd (mem_keys_of_lookup O V none hO)]
  exact hE

theorem envVarContext_present_to_unset_round_trip_witness :
    ((envVarContextEnter [(("V"), none)]
        (fun n => if n = ("V") then some ("x") else none)).2 ("V") = none) ∧
    (envVarContextExit
      (envVarContextEnter [(("V"), none)]
        (fun n => if n = ("V") then some ("x") else none)).1
      (envVarContextEnter [(("V"), none)]
        (fun n => if n = ("V") then some ("x") else none)).2 ("V")
      = some ("x")) :=
  envVarContext_present_to_unset_round_trip [(("V"), none)]
    (fun n => if n = ("V") then some ("x") else none) ("V") ("x")
    (by decide) (by decide) (by decide)

/-- C4: if `V` is absent before `__enter__` and the override set maps `V`
to a string value, then after `__enter__` `V` holds that value and after
`__exit__` it is absent again. -/
theorem envVarContext_unset_round_trip
    (O : List (String × Option String)) (E : Env) (V x : String)
    (hnd : (O.map Prod.fst).Nodup) (hO : List.lookup V O = some (some x))
    (hE : E V = none) :
    (envVarContextEnter O E).2 V = some x ∧
    envVarContextExit (envVarContextEnter O E).1 (envVarContextEnter O E).2 V
      = none := by
  refine ⟨enter_env_lookup O E V (some x) hnd hO, ?_⟩
  rw [enter_exit_restore O E V hnd (mem_keys_of_lookup O V (some x) hO)]
  exact hE

theorem envVarContext_unset_round_trip_witness :
    ((envVarContextEnter [(("V"), some ("val"))] (fun _ => none)).2 ("V")
      = some ("val")) ∧
    (envVarContextExit
      (envVarContextEnter [(("V"), some ("val"))] (fun _ => none)).1
      (envVarContextEnter [(("V"), some ("val"))] (fun _ => none)).2 ("V")
      = none) :=
  envVarContext_unset_round_trip [(("V"), some ("val"))] (fun _ => none)
    ("V") ("val") (by decide) (by decide) rfl

/-- C5: nested scopes compose.  If `V` starts absent, an outer context
overriding `V` to `a` is entered, then an inner context overriding `V` to
`b`; after the inner `__exit__` the value of `V` is `a` again, and after the outer
`__exit__` `V` is absent. -/
theorem envVarContext_nesting_composes (E : Env) (V : String)
    (hE : E V = none) :
    (envVarContextExit
      (envVarContextEnter [((V), some ("b"))]
        (envVarContextEnter [((V), some ("a"))] E).2).1
      (envVarContextEnter [((V), some ("b"))]
        (envVarContextEnter [((V), some ("a"))] E).2).2 V
      = some ("a")) ∧
    (envVarContextExit (envVarContextEnter [((V), some ("a"))] E).1
      (envVarContextExit
        (envVarContextEnter [((V), some ("b"))]
          (envVarContextEnter [((V), some ("a"))] E).2).1
        (envVarContextEnter [((V), some ("b"))]
          (envVarContextEnter [((V), some ("a"))] E).2).2) V
      = none) := by
  have hkeys : V ∈ ([((V), some ("a"))].map Prod.fst) := by simp
  have hnd : (([((V), some ("a"))] :
      List (String × Option String)).map Prod.fst).Nodup := by simp
  have hkeysb : V ∈ ([((V), some ("b"))].map Prod.fst) := by simp
  have hndb : (([((V), some ("b"))] :
      List (String × Option String)).map Prod.fst).Nodup := by simp
  have houter : (envVarContextEnter [((V), some ("a"))] E).2 V = some ("a") :=
    enter_env_lookup _ E V (some ("a")) hnd (by simp [List.lookup])
  have hinner :
      envVarContextExit
        (envVarContextEnter [((V), some ("b"))]
          (envVarContextEnter [((V), some ("a"))] E).2).1
        (envVarContextEnter [((V), some ("b"))]
          (envVarContextEnter [((V), some ("a"))] E).2).2 V
        = some ("a") := by
    rw [enter_exit_restore _ _ V hndb hkeysb]
    exact houter
  refine ⟨hinner, ?_⟩
  rw [exit_env_lookup _ _ V (E V) (by rw [enter_saved_keys]; exact hnd)
    (enter_saved_lookup _ E V hkeys)]
  exact hE

theorem envVarContext_nesting_composes_witness :
    ((envVarContextExit
      (envVarContextEnter [(("V"), some ("b"))]
        (envVarContextEnter [(("V"), some ("a"))] (fun _ => none)).2).1
      (envVarContextEnter [(("V"), some ("b"))]
        (envVarContextEnter [(("V"), some ("a"))] (fun _ => none)).2).2 ("V")
      = some ("a")) ∧
    (envVarContextExit
      (envVarContextEnter [(("V"), some ("a"))] (fun _ => none)).1
      (envVarContextExit
        (envVarContextEnter [(("V"), some ("b"))]
          (envVarContextEnter [(("V"), some ("a"))] (fun _ => none)).2).1
        (envVarContextEnter [(("V"), some ("b"))]
          (envVarContextEnter [(("V"), some ("a"))] (fun _ => none)).2).2)
      ("V") = none)) :=
  envVarContext_nesting_composes (fun _ => none) ("V") rfl

/-- C10: `__exit__` mutates only the names recorded in the saved state
captured at `__enter__` (the override-set names).  Any change made to
another variable between `__enter__` and `__exit__` (environment `Emid`)
persists unchanged after `__exit__`. -/
theorem envVarContext_exit_frame (O : List (String × Option String))
    (E Emid : Env) (k : String) (hk : k ∉ O.map Prod.fst) :
    envVarContextExit (envVarContextEnter O E).1 Emid k = Emid k := by
  apply exit_env_not_mem
  rw [enter_saved_keys]
  exact hk

theorem envVarContext_exit_frame_witness :
    envVarContextExit
      (envVarContextEnter [(("A"), some ("1"))] (fun _ => none)).1
      (fun n => if n = ("NEW") then some ("set-inside") else none) ("NEW")
      = (fun n : String =>
          if n = ("NEW") then some ("set-inside") else none) ("NEW") :=
  envVarContext_exit_frame [(("A"), some ("1"))] (fun _ => none)
    (fun n => if n = ("NEW") then some ("set-inside") else none) ("NEW")
    (by decide)


theorem lookup_cons (k name : String) (value : Option String)
    (rest : List (String × Option String)) :
    List.lookup k ((name, value) :: rest)
      = if k = name then some value else List.lookup k rest := by
  by_cases h : k = name
  · subst h
    simp [List.lookup]
  · simp [List.lookup, beq_eq_false_iff_ne.mpr h, h]

/-- Python `d[k] = v` on a dict modelled as an association list in
insertion order: replace the value if the key is present, otherwise append
the new pair. -/
def dictInsert (d : List (String × Option String)) (k : String)
    (v : Option String) : List (String × Option String) :=
  if d.any (fun p => p.1 == k) then
    d.map (fun p => if p.1 = k then (k, v) else p)
  else d ++ [(k, v)]

/-- Python `d.update(u)`: insert every pair of `u`, in order, into `d`. -/
def dictUpdate (d u : List (String × Option String)) :
    List (String × Option String) :=
  u.foldl (fun acc p => dictInsert acc p.1 p.2) d

/-- Constructor `EnvVarContext.__init__`: `self.env_vars = dict(copy.deepcopy(env_vars))`
followed by `self.env_vars.update(kwargs_env_vars)`. -/
def envVarContextInit (env_vars kwargs_env_vars :
    List (String × Option String)) : List (String × Option String) :=
  dictUpdate env_vars kwargs_env_vars

theorem lookup_eq_none_of_not_mem_keys (l : List (String × Option String))
    (k : String) (hk : k ∉ l.map Prod.fst) : List.lookup k l = none := by
  induction l with
  | nil => rfl
  | cons p rest ih =>
    obtain ⟨name, value⟩ := p
    simp only [List.map_cons, List.mem_cons, not_or] at hk
    rw [lookup_cons, if_neg hk.1]
    exact ih hk.2

theorem lookup_dictInsert_self (d : List (String × Option String))
    (k : String) (v : Option String) :
    List.lookup k (dictInsert d k v) = some v := by
  unfold dictInsert
  by_cases h : d.any (fun p => p.1 == k) = true
  · rw [if_pos h]
    induction d with
    | nil => simp at h
    | cons p rest ih =>
      obtain ⟨name, value⟩ := p
      by_cases hn : name = k
      · subst hn
        simp only [List.map_cons]
        rw [if_pos trivial]
        rw [lookup_cons, if_pos rfl]
      · simp only [List.any_cons, beq_eq_false_iff_ne.mpr hn,
          Bool.false_or] at h
        simp only [List.map_cons, if_neg hn]
        rw [lookup_cons, if_neg (Ne.symm hn)]
        exact ih h
  · rw [if_neg h]
    simp only [List.any_eq_true, beq_iff_eq, not_exists, not_and] at h
    induction d with
    | nil =>
      rw [List.nil_append, lookup_cons, if_pos rfl]
    | cons p rest ih =>
      obtain ⟨name, value⟩ := p
      have hn : name ≠ k := h (name, value) (by simp)
      rw [List.cons_append, lookup_cons, if_neg (Ne.symm hn)]
      exact ih (fun q hq => h q (List.mem_cons_of_mem _ hq))

theorem lookup_dictInsert_ne (d : List (String × Option String))
    (a k : String) (v : Option String) (hka : k ≠ a) :
    List.lookup k (dictInsert d a v) = List.lookup k d := by
  unfold dictInsert
  by_cases h : d.any (fun p => p.1 == a) = true
  · rw [if_pos h]
    clear h
    induction d with
    | nil => rfl
    | cons p rest ih =>
      obtain ⟨name, value⟩ := p
      by_cases hn : name = a
      · subst hn
        simp only [List.map_cons]
        rw [if_pos trivial]
        rw [lookup_cons, if_neg hka, lookup_cons, if_neg hka]
        exact ih
      · simp only [List.map_cons, if_neg hn]
        rw [lookup_cons, lookup_cons]
        by_cases hkn : k = name
        · rw [if_pos hkn, if_pos hkn]
        · rw [if_neg hkn, if_neg hkn]
          exact ih
  · rw [if_neg h]
    clear h
    induction d with
    | nil =>
      rw [List.nil_append, lookup_cons, if_neg hka]
    | cons p rest ih =>
      obtain ⟨name, value⟩ := p
      rw [List.cons_append, lookup_cons, lookup_cons]
      by_cases hkn : k = name
      · rw [if_pos hkn, if_pos hkn]
      · rw [if_neg hkn, if_neg hkn]
        exact ih

theorem any_key_eq_iff (d : List (String × Option String)) (a : String) :
    (d.any fun p => p.1 == a) = true ↔ a ∈ d.map Prod.fst := by
  simp only [List.any_eq_true, beq_iff_eq, List.mem_map]

theorem keys_map_replace (d : List (String × Option String)) (a : String)
    (v : Option String) :
    (d.map (fun p => if p.1 = a then (a, v) else p)).map Prod.fst
      = d.map Prod.fst := by
  induction d with
  | nil => rfl
  | cons p rest ih =>
    obtain ⟨name, value⟩ := p
    have hh : (if (name, value).1 = a then (a, v) else (name, value)).1
        = name := by
      by_cases hna : name = a
      · subst hna
        simp
      · simp [hna]
    simp only [List.map_cons, hh, ih]

theorem nodup_keys_dictInsert (d : List (String × Option String))
    (a : String) (v : Option String) (hnd : (d.map Prod.fst).Nodup) :
    ((dictInsert d a v).map Prod.fst).Nodup := by
  unfold dictInsert
  by_cases h : (d.any fun p => p.1 == a) = true
  · rw [if_pos h, keys_map_replace]
    exact hnd
  · rw [if_neg h]
    rw [any_key_eq_iff] at h
    simp only [List.map_append, List.map_cons, List.map_nil]
    rw [List.nodup_append]
    refine ⟨hnd, List.nodup_singleton a, ?_⟩
    intro x hx hxa
    simp only [List.mem_singleton] at hxa
    subst hxa
    exact h hx

theorem nodup_keys_dictUpdate (d u : List (String × Option String))
    (hnd : (d.map Prod.fst).Nodup) :
    ((dictUpdate d u).map Prod.fst).Nodup := by
  induction u generalizing d with
  | nil => exact hnd
  | cons p rest ih =>
    exact ih (dictInsert d p.1 p.2) (nodup_keys_dictInsert d p.1 p.2 hnd)

/-- A `dict.update` looks up the updating dict first: merged values come
from `u` when the key is in `u`, otherwise from `d`. -/
theorem lookup_dictUpdate (d u : List (String × Option String)) (k : String)
    (hnd : (u.map Prod.fst).Nodup) :
    List.lookup k (dictUpdate d u)
      = match List.lookup k u with
        | some v => some v
        | none => List.lookup k d := by
  induction u generalizing d with
  | nil => rfl
  | cons p rest ih =>
    obtain ⟨name, value⟩ := p
    simp only [List.map_cons, List.nodup_cons] at hnd
    show List.lookup k (dictUpdate (dictInsert d name value) rest) = _
    rw [ih _ hnd.2, lookup_cons]
    by_cases hk : k = name
    · subst hk
      rw [if_pos rfl, lookup_eq_none_of_not_mem_keys rest k hnd.1,
        lookup_dictInsert_self]
    · rw [if_neg hk, lookup_dictInsert_ne d name k value hk]

/-- C6: when `EnvVarContext` is constructed with both a mapping and keyword
arguments and a name appears in both, the keyword-argument value wins in
the merged override set, and after `__enter__` the environment holds the
keyword-argument value. -/
theorem envVarContext_kwargs_precedence
    (env_vars kwargs : List (String × Option String)) (E : Env)
    (X : String) (v : Option String)
    (hnd1 : (env_vars.map Prod.fst).Nodup)
    (hnd2 : (kwargs.map Prod.fst).Nodup)
    (hboth : X ∈ env_vars.map Prod.fst)
    (hkw : List.lookup X kwargs = some v) :
    List.lookup X (envVarContextInit env_vars kwargs) = some v ∧
    (envVarContextEnter (envVarContextInit env_vars kwargs) E).2 X = v := by
  have hmerge : List.lookup X (envVarContextInit env_vars kwargs) = some v := by
    unfold envVarContextInit
    rw [lookup_dictUpdate env_vars kwargs X hnd2, hkw]
  refine ⟨hmerge, ?_⟩
  exact enter_env_lookup _ E X v (nodup_keys_dictUpdate env_vars kwargs hnd1)
    hmerge

theorem envVarContext_kwargs_precedence_witness :
    (List.lookup ("X")
      (envVarContextInit [(("X"), some ("1"))] [(("X"), some ("2"))])
      = some (some ("2"))) ∧
    ((envVarContextEnter
      (envVarContextInit [(("X"), some ("1"))] [(("X"), some ("2"))])
      (fun _ => none)).2 ("X") = some ("2")) :=
  envVarContext_kwargs_precedence [(("X"), some ("1"))]
    [(("X"), some ("2"))] (fun _ => none) ("X") (some ("2"))
    (by decide) (by decide) (by decide) (by decide)

/-- Function `join_dir_list` from `env_helpers.py`.  The source computes a stripped
copy of the list and binds it to `d`, but the list comprehension in the
return statement rebinds `d` to the elements of `dirs`, so the stripped
copy is never used: the function colon-joins the truthy (non-empty)
elements of the original, unstripped list. -/
def join_dir_list (dirs : List String) : String :=
  let d := dirs.map (fun s => s.trim)
  let _ := d
  String.intercalate (":") (dirs.filter (fun s => !s.isEmpty))

/-- C9: `join_dir_list dirs` is the colon-join of the truthy (non-empty)
elements of the original, unstripped list; in particular a whitespace-only
element consisting of a single space appears in the result with its
whitespace intact. -/
theorem join_dir_list_joins_unstripped_truthy :
    (∀ dirs : List String,
      join_dir_list dirs
        = String.intercalate (":") (dirs.filter (fun s => s ≠ ("")))) ∧
    join_dir_list [("a"), (" "), (""), ("b")] = ("a: :b") := by
  constructor
  · intro dirs
    unfold join_dir_list
    simp only
    congr 1
    apply List.filter_congr
    intro s _
    by_cases hs : s = ("")
    · subst hs
      rfl
    · have h1 : s.isEmpty = false := by
        rw [Bool.eq_false_iff]
        intro hx
        exact hs ((String.isEmpty_iff s).mp hx)
      rw [h1]
      simp [hs]
  · rfl

/-- Constant `ENV_VARS_TO_SAVE` from `env_helpers.py`: the word set listed in the
source (the result of `split_into_word_set` on the embedded string). -/
def ENV_VARS_TO_SAVE : List String :=
  [("ASAN_OPTIONS"), ("CC"), ("CFLAGS"), ("CPPFLAGS"), ("CXX"),
   ("CXXFLAGS"), ("LANG"), ("LDFLAGS"), ("PATH"), ("PYTHONPATH"),
   ("NM"), ("AR"), ("LD"), ("AS")]

/-- A single-quote character (ASCII 39), used by `shlex.quote`. -/
def squote : String := String.singleton (Char.ofNat 39)

/-- A character the `shlex` module considers safe: the complement of its
`_find_unsafe` regex under `re.ASCII`, i.e. ASCII word characters and
`@ % + = : , . / -`. -/
def shlexSafeChar (c : Char) : Bool :=
  (decide ('a' ≤ c) && decide (c ≤ 'z')) ||
  (decide ('A' ≤ c) && decide (c ≤ 'Z')) ||
  (decide ('0' ≤ c) && decide (c ≤ '9')) ||
  c == '_' || c == '@' || c == '%' || c == '+' || c == '=' ||
  c == ':' || c == ',' || c == '.' || c == '/' || c == '-'

/-- Python `shlex.quote`: the empty string becomes two quotes; a string of
safe characters is returned unchanged; otherwise the string is wrapped in
single quotes with embedded single quotes escaped. -/
def shlexQuote (s : String) : String :=
  if s.data.isEmpty then squote ++ squote
  else if s.data.all shlexSafeChar then s
  else
    squote ++
      (s.replace squote (squote ++ ("\x22") ++ squote ++ ("\x22") ++ squote))
      ++ squote

/-- Python `str.startswith`: the pattern is a prefix of the character
sequence of the string. -/
def pyStartsWith (s p : String) : Bool :=
  p.data.isPrefixOf s.data

/-- The condition of `write_env_vars`: the variable name is in
`ENV_VARS_TO_SAVE`, is in `DEVTOOLSET_ENV_VARS`, or starts with `YB_`. -/
def envVarShouldSave (devtoolset_env_vars : String → Bool)
    (k : String) : Bool :=
  ENV_VARS_TO_SAVE.contains k || devtoolset_env_vars k ||
    pyStartsWith k ("YB_")

/-- One line appended by `write_env_vars`:
the format `export %s=%s` plus a newline, applied to the name and the
quoted value. -/
def exportLine (kv : String × String) : String :=
  ("export ") ++ kv.1 ++ ("=") ++ shlexQuote kv.2 ++ ("\n")

/-- The comparison Python `sorted` uses on `dict(os.environ).items()`:
lexicographic on the (key, value) tuple. -/
def envPairLe (a b : String × String) : Bool :=
  decide (a.1 < b.1) || (a.1 == b.1 && decide (a.2 ≤ b.2))

/-- Function `write_env_vars` from `env_helpers.py`, modelled as the string written
to the file.  The current environment `os.environ` is a snapshot list of
(name, value) pairs.  `devtoolset_env_vars` abstracts membership in
`DEVTOOLSET_ENV_VARS`, imported from `yugabyte_db_thirdparty.devtoolset`,
whose definition is not among the sources. -/
def write_env_vars (devtoolset_env_vars : String → Bool)
    (environ : List (String × String)) : String :=
  (List.mergeSort environ envPairLe).foldl
    (fun env_script kv =>
      if envVarShouldSave devtoolset_env_vars kv.1 then
        env_script ++ exportLine kv
      else env_script)
    ("")

/-- The filtered, sorted items `write_env_vars` serializes. -/
def allowedExportItems (devtoolset_env_vars : String → Bool)
    (environ : List (String × String)) : List (String × String) :=
  (List.mergeSort environ envPairLe).filter
    (fun kv => envVarShouldSave devtoolset_env_vars kv.1)

theorem string_foldl_append (l : List String) (a : String) :
    l.foldl (fun r s => r ++ s) a
      = a ++ l.foldl (fun r s => r ++ s) ("") := by
  induction l generalizing a with
  | nil => simp [List.foldl]
  | cons b rest ih =>
    simp only [List.foldl]
    rw [ih (a ++ b), ih (("") ++ b), String.empty_append,
      String.append_assoc]

theorem string_join_cons (a : String) (l : List String) :
    String.join (a :: l) = a ++ String.join l := by
  show List.foldl (fun r s => r ++ s) (("") ++ a) l = _
  rw [String.empty_append, string_foldl_append]
  rfl

theorem foldl_if_append_eq_join (p : String × String → Bool)
    (f : String × String → String) (l : List (String × String))
    (acc : String) :
    l.foldl (fun s kv => if p kv then s ++ f kv else s) acc
      = acc ++ String.join ((l.filter p).map f) := by
  induction l generalizing acc with
  | nil => simp [String.join]
  | cons kv rest ih =>
    by_cases hp : p kv
    · simp only [List.foldl, hp, if_true, List.filter_cons_of_pos hp,
        List.map_cons, string_join_cons]
      rw [ih, String.append_assoc]
    · simp only [List.foldl, hp, if_false, List.filter_cons_of_neg hp]
      exact ih acc

theorem envPairLe_trans (a b c : String × String) (hab : envPairLe a b)
    (hbc : envPairLe b c) : envPairLe a c := by
  simp only [envPairLe, Bool.or_eq_true, Bool.and_eq_true,
    decide_eq_true_eq, beq_iff_eq] at hab hbc ⊢
  rcases hab with h1 | ⟨h1, h2⟩
  · rcases hbc with h3 | ⟨h3, h4⟩
    · exact Or.inl (lt_trans h1 h3)
    · exact Or.inl (h3 ▸ h1)
  · rcases hbc with h3 | ⟨h3, h4⟩
    · exact Or.inl (h1 ▸ h3)
    · exact Or.inr ⟨h1.trans h3, le_trans h2 h4⟩

theorem envPairLe_total (a b : String × String) :
    envPairLe a b || envPairLe b a := by
  simp only [envPairLe, Bool.or_eq_true, Bool.and_eq_true,
    decide_eq_true_eq, beq_iff_eq]
  rcases lt_trichotomy a.1 b.1 with h | h | h
  · exact Or.inl (Or.inl h)
  · rcases le_total a.2 b.2 with h2 | h2
    · exact Or.inl (Or.inr ⟨h, h2⟩)
    · exact Or.inr (Or.inr ⟨h.symm, h2⟩)
  · exact Or.inr (Or.inl h)

/-- C8 (amended): `write_env_vars` writes exactly one shell `export`
statement per current environment variable whose name is in
`ENV_VARS_TO_SAVE`, is in `DEVTOOLSET_ENV_VARS`, or starts with `YB_`:
the output is the concatenation of the export lines of
`allowedExportItems`, that item list is strictly sorted by variable name,
and it contains exactly the environment pairs passing the filter — so
nothing is written for any variable outside the filtered subset. -/
theorem write_env_vars_sorted_filtered_exports
    (dt : String → Bool) (environ : List (String × String))
    (hnd : (environ.map Prod.fst).Nodup) :
    write_env_vars dt environ
      = String.join ((allowedExportItems dt environ).map exportLine) ∧
    List.Pairwise (fun a b : String × String => a.1 < b.1)
      (allowedExportItems dt environ) ∧
    (∀ kv : String × String,
      kv ∈ allowedExportItems dt environ
        ↔ (kv ∈ environ ∧ envVarShouldSave dt kv.1)) := by
  refine ⟨?_, ?_, ?_⟩
  · unfold write_env_vars allowedExportItems
    rw [foldl_if_append_eq_join, String.empty_append]
  · have hsorted : List.Pairwise (fun a b => envPairLe a b)
        (List.mergeSort environ envPairLe) :=
      List.sorted_mergeSort envPairLe_trans envPairLe_total environ
    have hperm : List.Perm (List.mergeSort environ envPairLe) environ :=
      List.mergeSort_perm environ envPairLe
    have hnds : ((List.mergeSort environ envPairLe).map Prod.fst).Nodup :=
      ((hperm.map Prod.fst).nodup_iff).mpr hnd
    have hne : List.Pairwise (fun a b : String × String => a.1 ≠ b.1)
        (List.mergeSort environ envPairLe) :=
      (List.pairwise_map).mp hnds
    have hcomb := (hsorted.and hne).imp
      (fun {a b} h => by
        obtain ⟨h1, h2⟩ := h
        simp only [envPairLe, Bool.or_eq_true, Bool.and_eq_true,
          decide_eq_true_eq, beq_iff_eq] at h1
        rcases h1 with h1 | ⟨h1, _⟩
        · exact h1
        · exact absurd h1 h2)
    exact hcomb.filter _
  · intro kv
    unfold allowedExportItems
    rw [List.mem_filter,
      (List.mergeSort_perm environ envPairLe).mem_iff]

theorem write_env_vars_sorted_filtered_exports_witness :
    (write_env_vars (fun _ => false) [(("PATH"), ("/bin")), (("FOO"), ("1"))]
      = String.join
          ((allowedExportItems (fun _ => false)
            [(("PATH"), ("/bin")), (("FOO"), ("1"))]).map exportLine) ∧
    List.Pairwise (fun a b : String × String => a.1 < b.1)
      (allowedExportItems (fun _ => false)
        [(("PATH"), ("/bin")), (("FOO"), ("1"))]) ∧
    (∀ kv : String × String,
      kv ∈ allowedExportItems (fun _ => false)
          [(("PATH"), ("/bin")), (("FOO"), ("1"))]
        ↔ (kv ∈ [(("PATH"), ("/bin")), (("FOO"), ("1"))] ∧
            envVarShouldSave (fun _ => false) kv.1))) :=
  write_env_vars_sorted_filtered_exports (fun _ => false)
    [(("PATH"), ("/bin")), (("FOO"), ("1"))] (by decide)

/-- C8 counterexample: the variable `YB_FOO` is not in the pre-approved
set `ENV_VARS_TO_SAVE`, yet `write_env_vars` writes an export statement
for it (here with the `DEVTOOLSET_ENV_VARS` membership instantiated as
constantly false; the `YB_` prefix branch of the condition fires
regardless of that set). -/
theorem write_env_vars_writes_non_approved_name :
    ENV_VARS_TO_SAVE.contains ("YB_FOO") = false ∧
    write_env_vars (fun _ => false) [(("YB_FOO"), ("bar"))]
      = ("export YB_FOO=bar\n") := by
  constructor
  · rfl
  · unfold write_env_vars
    rw [List.mergeSort_singleton]
    decide
